import Mathlib

/-!
Verification of the MarketAnly analysis-response pipeline.

The definitions below are a shallow embedding of the TypeScript sources:
`services/gemini.ts` (the `fileToPart`, `analyzeMarketImages` and
`sendChatMessage` functions), `App.tsx` (the `runAnalysis` handler and its
UI state), `components/ChatInterface.tsx` (the `handleSend` handler),
`types.ts` (the record shapes) and `constants.ts`
(`INITIAL_VISUALIZATION_DATA`).

JavaScript strings are modelled as `List Char`; JavaScript numbers arising
from `JSON.parse` are modelled as exact decimals (`JNum`) — every numeric
literal of the JSON grammar denotes an exact decimal, which the model keeps
exactly instead of rounding to IEEE doubles (no claim depends on rounding).
Fallible operations are modelled with `Option`/`Except`, and the
module-level mutable `chatInstance` together with the React `useState`
cells are modelled as fields of explicit state records threaded through the
event handlers.  String positions count characters (JavaScript counts
UTF-16 code units); the two agree on every text the pipeline handles short
of astral-plane code points, which no claim involves.
-/

namespace MarketAnly

/-! ## JavaScript string primitives

`String.prototype.trim` removes leading and trailing whitespace
(WhiteSpace ∪ LineTerminator).  The model covers the code points that can
actually occur in the pipeline's data (ASCII whitespace, NBSP, BOM). -/

/-- Whitespace predicate used by the model of `String.prototype.trim`. -/
def isTrimWS (c : Char) : Bool :=
  c == ' ' || c == '\t' || c == '\n' || c == '\r' ||
  c == Char.ofNat 11 || c == Char.ofNat 12 || c == Char.ofNat 160 ||
  c == Char.ofNat 65279

/-- Model of `s.trim()`: drop whitespace from both ends. -/
def trimStr (s : List Char) : List Char :=
  ((s.dropWhile isTrimWS).reverse.dropWhile isTrimWS).reverse

/-- Does `pat` occur as a prefix of `s`? -/
def startsWith : List Char → List Char → Bool
  | [], _ => true
  | _ :: _, [] => false
  | p :: ps, c :: cs => p == c && startsWith ps cs

/-- Index of the first occurrence of `pat` in `s` (leftmost match of a
literal pattern, as a JavaScript regex or `String.prototype.replace` with
a string pattern would find it). -/
def indexOfSub (pat : List Char) : List Char → Option Nat
  | [] => if startsWith pat [] then some 0 else none
  | c :: rest =>
    if startsWith pat (c :: rest) then some 0
    else (indexOfSub pat rest).map (· + 1)

/-- Model of `s.replace(pat, '')` for a literal string `pat`: remove the
first occurrence of `pat` from `s` (or return `s` unchanged). -/
def removeFirst (pat s : List Char) : List Char :=
  match indexOfSub pat s with
  | none => s
  | some i => s.take i ++ s.drop (i + pat.length)

/-- The contiguous slice of `s` of length `n` starting at index `i`. -/
def sliceFrom (s : List Char) (i n : Nat) : List Char :=
  (s.drop i).take n

/-- Does `pat` occur somewhere inside `s`? -/
def containsSub (pat s : List Char) : Bool :=
  (indexOfSub pat s).isSome

/-! ## JSON values and `JSON.parse`

`analyzeMarketImages` runs `JSON.parse` on the body of the fenced block.
The model below is a recursive-descent parser for the JSON grammar
(ECMA-404, the grammar accepted by `JSON.parse`): optional whitespace
around tokens, objects, arrays, double-quoted strings with the standard
escapes, numbers with optional sign, fraction and exponent, and the
literals `true`/`false`/`null`.  Recursion is bounded by fuel; the fuel
budget `2 * length + 2` dominates the recursion depth because every two
nested calls consume at least one input character. -/

/-- A JSON number as the exact decimal `mant / 10 ^ pexp`, kept in lowest
decimal terms (`canonDec`), so two numeric literals denoting the same
decimal value are represented identically.  (JavaScript rounds to IEEE
doubles; no claim depends on that rounding.) -/
structure JNum where
  mant : Int
  pexp : Nat
  deriving DecidableEq

/-- JSON values produced by the model of `JSON.parse`.  Object fields keep
their textual order; duplicate keys are resolved by `lookupField` (last
occurrence wins, as in JavaScript object literals). -/
inductive Json where
  | null
  | bool (b : Bool)
  | num (n : JNum)
  | str (s : List Char)
  | arr (xs : List Json)
  | obj (fields : List (List Char × Json))

/-- Whitespace accepted between JSON tokens (per the JSON grammar). -/
def isJsonWS (c : Char) : Bool :=
  c == ' ' || c == '\t' || c == '\n' || c == '\r'

/-- Skip leading JSON whitespace. -/
def skipWS (s : List Char) : List Char :=
  s.dropWhile isJsonWS

/-- Is `c` an ASCII digit? -/
def isDigitCh (c : Char) : Bool :=
  48 ≤ c.toNat && c.toNat ≤ 57

/-- Value of a hexadecimal digit. -/
def hexVal (c : Char) : Option Nat :=
  if 48 ≤ c.toNat && c.toNat ≤ 57 then some (c.toNat - 48)
  else if 97 ≤ c.toNat && c.toNat ≤ 102 then some (c.toNat - 87)
  else if 65 ≤ c.toNat && c.toNat ≤ 70 then some (c.toNat - 55)
  else none

/-- The `{` and `}` delimiter characters of the JSON object grammar. -/
def lbraceCh : Char := Char.ofNat 123

/-- Closing counterpart of `lbraceCh`. -/
def rbraceCh : Char := Char.ofNat 125

/-- Parse the body of a JSON string after the opening quote, accumulating
decoded characters.  A `\u` escape outside the Unicode scalar range is
mapped through `Char.ofNat`'s default (the pipeline never produces one). -/
def parseStrBody : Nat → List Char → List Char → Option (List Char × List Char)
  | 0, _, _ => none
  | _ + 1, [], _ => none
  | fuel + 1, c :: rest, acc =>
    if c == '"' then some (acc.reverse, rest)
    else if c == '\\' then
      match rest with
      | [] => none
      | e :: rest2 =>
        if e == '"' then parseStrBody fuel rest2 ('"' :: acc)
        else if e == '\\' then parseStrBody fuel rest2 ('\\' :: acc)
        else if e == '/' then parseStrBody fuel rest2 ('/' :: acc)
        else if e == 'b' then parseStrBody fuel rest2 (Char.ofNat 8 :: acc)
        else if e == 'f' then parseStrBody fuel rest2 (Char.ofNat 12 :: acc)
        else if e == 'n' then parseStrBody fuel rest2 ('\n' :: acc)
        else if e == 'r' then parseStrBody fuel rest2 ('\r' :: acc)
        else if e == 't' then parseStrBody fuel rest2 ('\t' :: acc)
        else if e == 'u' then
          match rest2 with
          | h1 :: h2 :: h3 :: h4 :: rest3 =>
            match hexVal h1, hexVal h2, hexVal h3, hexVal h4 with
            | some a, some b, some c2, some d =>
              parseStrBody fuel rest3
                (Char.ofNat (a * 4096 + b * 256 + c2 * 16 + d) :: acc)
            | _, _, _, _ => none
          | _ => none
        else none
    else if c.toNat < 32 then none
    else parseStrBody fuel rest (c :: acc)

/-- Read a maximal run of decimal digits, returning the value, the number
of digits read, and the rest of the input. -/
def readDigits : List Char → Nat → Nat → Nat × Nat × List Char
  | c :: rest, acc, cnt =>
    if isDigitCh c then readDigits rest (acc * 10 + (c.toNat - 48)) (cnt + 1)
    else (acc, cnt, c :: rest)
  | [], acc, cnt => (acc, cnt, [])

/-- Integer value of `10 ^ n`. -/
def ipow10 : Nat → Int
  | 0 => 1
  | n + 1 => 10 * ipow10 n

/-- Reduce `m / 10 ^ p` to lowest decimal terms by cancelling factors of
ten. -/
def canonDec : Int → Nat → Int × Nat
  | m, 0 => (m, 0)
  | m, p + 1 => if m % 10 == 0 then canonDec (m / 10) p else (m, p + 1)

/-- The exact decimal denoted by a parsed numeric literal: sign, digit
value of the integer-plus-fraction run, fraction length and exponent. -/
def mkDecNum (neg : Bool) (digits : Nat) (fracLen : Nat)
    (eneg : Bool) (ev : Nat) : JNum :=
  let e : Int := (if eneg then -(ev : Int) else (ev : Int)) - (fracLen : Int)
  let base : Int × Nat :=
    if 0 ≤ e then ((digits : Int) * ipow10 e.toNat, 0)
    else ((digits : Int), (-e).toNat)
  let signed : Int := if neg then -base.1 else base.1
  let c := canonDec signed base.2
  ⟨c.1, c.2⟩

/-- Parse a JSON number (sign, integer part with no leading zeros,
optional fraction, optional exponent) to its exact decimal value. -/
def parseNum (s : List Char) : Option (JNum × List Char) :=
  let signRes : Bool × List Char :=
    match s with
    | c :: rest => if c == '-' then (true, rest) else (false, c :: rest)
    | [] => (false, [])
  match signRes with
  | (neg, s1) =>
    match s1 with
    | [] => none
    | c :: rest =>
      if !isDigitCh c then none
      else
        let intRes : Nat × List Char :=
          if c == '0' then (0, rest)
          else
            match readDigits (c :: rest) 0 0 with
            | (v, _, r) => (v, r)
        match intRes with
        | (ipart, s2) =>
          let fracRes : Option (Nat × Nat × List Char) :=
            match s2 with
            | d :: r2 =>
              if d == '.' then
                match readDigits r2 0 0 with
                | (fv, fn, r3) => if fn == 0 then none else some (fv, fn, r3)
              else some (0, 0, d :: r2)
            | [] => some (0, 0, [])
          match fracRes with
          | none => none
          | some (fv, fn, s3) =>
            let expRes : Option (Bool × Nat × List Char) :=
              match s3 with
              | e :: r4 =>
                if e == 'e' || e == 'E' then
                  let expSign : Bool × List Char :=
                    match r4 with
                    | g :: r5 =>
                      if g == '+' then (false, r5)
                      else if g == '-' then (true, r5)
                      else (false, g :: r5)
                    | [] => (false, [])
                  match expSign with
                  | (eneg, r6) =>
                    match readDigits r6 0 0 with
                    | (ev, en, r7) => if en == 0 then none else some (eneg, ev, r7)
                else some (false, 0, e :: r4)
              | [] => some (false, 0, [])
            match expRes with
            | none => none
            | some (eneg, ev, s4) =>
              some (mkDecNum neg (ipart * 10 ^ fn + fv) fn eneg ev, s4)

/-- Continuation mode of the recursive-descent parser: parsing one value,
the remaining elements of an array (elements read so far in the
accumulator), or the remaining members of an object. -/
inductive PMode where
  | value
  | arrRest (acc : List Json)
  | objRest (acc : List (List Char × Json))

/-- The recursive-descent parser, structurally recursive on fuel.  In
`value` mode it parses one JSON value at the head of the input (leading
whitespace already skipped) and returns it with the unconsumed rest; the
`arrRest`/`objRest` modes continue after `[`/`{` (whitespace skipped). -/
def parseStep : Nat → PMode → List Char → Option (Json × List Char)
  | 0, _, _ => none
  | fuel + 1, PMode.value, s =>
    match s with
    | [] => none
    | c :: rest =>
      if c == '"' then
        match parseStrBody (rest.length + 1) rest [] with
        | some (str, r) => some (.str str, r)
        | none => none
      else if c == lbraceCh then parseStep fuel (PMode.objRest []) (skipWS rest)
      else if c == '[' then parseStep fuel (PMode.arrRest []) (skipWS rest)
      else if c == 't' then
        if startsWith ("true".toList) s then some (.bool true, s.drop 4) else none
      else if c == 'f' then
        if startsWith ("false".toList) s then some (.bool false, s.drop 5) else none
      else if c == 'n' then
        if startsWith ("null".toList) s then some (.null, s.drop 4) else none
      else if c == '-' || isDigitCh c then
        match parseNum s with
        | some (q, r) => some (.num q, r)
        | none => none
      else none
  | fuel + 1, PMode.arrRest acc, s =>
    match s with
    | [] => none
    | c :: rest =>
      if c == ']' && acc.isEmpty then some (.arr [], rest)
      else
        match parseStep fuel PMode.value (c :: rest) with
        | none => none
        | some (v, r) =>
          match skipWS r with
          | [] => none
          | d :: r2 =>
            if d == ',' then parseStep fuel (PMode.arrRest (acc ++ [v])) (skipWS r2)
            else if d == ']' then some (.arr (acc ++ [v]), r2)
            else none
  | fuel + 1, PMode.objRest acc, s =>
    match s with
    | [] => none
    | c :: rest =>
      if c == rbraceCh && acc.isEmpty then some (.obj [], rest)
      else if c == '"' then
        match parseStrBody (rest.length + 1) rest [] with
        | none => none
        | some (key, r) =>
          match skipWS r with
          | [] => none
          | d :: r2 =>
            if d == ':' then
              match parseStep fuel PMode.value (skipWS r2) with
              | none => none
              | some (v, r3) =>
                match skipWS r3 with
                | [] => none
                | e :: r4 =>
                  if e == ',' then
                    parseStep fuel (PMode.objRest (acc ++ [(key, v)])) (skipWS r4)
                  else if e == rbraceCh then some (.obj (acc ++ [(key, v)]), r4)
                  else none
            else none
      else none

/-- Model of `JSON.parse`: parse a complete JSON document, rejecting
trailing garbage.  Returns `none` where `JSON.parse` would throw. -/
def parseJson (s : List Char) : Option Json :=
  match parseStep (2 * s.length + 2) PMode.value (skipWS s) with
  | none => none
  | some (v, rest) => if (skipWS rest).isEmpty then some v else none

/-! ## JavaScript truthiness -/

/-- Truthiness of a JSON value when used in a JavaScript condition:
`null`, `false`, `0` and `""` are falsy, everything else truthy. -/
def jsTruthy : Json → Bool
  | .null => false
  | .bool b => b
  | .num n => !(n.mant == 0)
  | .str s => !s.isEmpty
  | .arr _ => true
  | .obj _ => true

/-- Truthiness of an optional string (an absent or empty string field is
falsy). -/
def truthyOptStr : Option (List Char) → Bool
  | none => false
  | some s => !s.isEmpty

/-! ## The `VisualizationData` shape (`types.ts`) -/

/-- Trend classification of a sector (`'up' | 'down' | 'neutral'`). -/
inductive Trend where
  | up
  | down
  | neutral
  deriving DecidableEq

/-- One entry of `keySectors` (`SectorData` in `types.ts`). -/
structure SectorData where
  name : List Char
  trend : Trend
  value : JNum
  deriving DecidableEq

/-- The `VisualizationData` record shape declared in `types.ts`. -/
structure VisRecord where
  sentimentScore : JNum
  volatilityIndex : JNum
  marketPhase : List Char
  keySectors : List SectorData
  deriving DecidableEq

/-- Field lookup in a parsed JSON object.  JavaScript object literals let
later duplicate keys overwrite earlier ones, so the last occurrence wins. -/
def lookupField (fields : List (List Char × Json)) (key : List Char) : Option Json :=
  match fields with
  | [] => none
  | (k, v) :: rest =>
    match lookupField rest key with
    | some r => some r
    | none => if k = key then some v else none

/-- Decode a JSON value as a `Trend`. -/
def asTrend (j : Json) : Option Trend :=
  match j with
  | .str s =>
    if s = "up".toList then some .up
    else if s = "down".toList then some .down
    else if s = "neutral".toList then some .neutral
    else none
  | _ => none

/-- Decode a JSON value as a `SectorData` entry. -/
def asSector (j : Json) : Option SectorData :=
  match j with
  | .obj fs =>
    match lookupField fs ("name".toList), lookupField fs ("trend".toList),
        lookupField fs ("value".toList) with
    | some (.str n), some tj, some (.num q) =>
      match asTrend tj with
      | some tr => some ⟨n, tr, q⟩
      | none => none
    | _, _, _ => none
  | _ => none

/-- Decode a JSON value as a record conforming to the `VisualizationData`
shape of `types.ts` (string `marketPhase`, numeric scores, a list of
well-formed sector entries).  The TypeScript code never performs this
check at runtime — it is the spec's notion of "decodes as a
VisualizationRecord". -/
def asVisRecord (j : Json) : Option VisRecord :=
  match j with
  | .obj fs =>
    match lookupField fs ("sentimentScore".toList),
        lookupField fs ("volatilityIndex".toList),
        lookupField fs ("marketPhase".toList),
        lookupField fs ("keySectors".toList) with
    | some (.num a), some (.num b), some (.str p), some (.arr xs) =>
      match xs.mapM asSector with
      | some secs => some ⟨a, b, p, secs⟩
      | none => none
    | _, _, _, _ => none
  | _ => none

/-! ## The fenced-block scanner of `analyzeMarketImages`

The source runs `fullText.match(/```json\n([\s\S]*?)\n```/)`: the leftmost
occurrence of the literal opener followed (non-greedily) by the literal
closer.  The leftmost regex match starts at the first occurrence of the
opener that has a closer somewhere after it; because any later opener sits
even further right, that is exactly: the first opener occurrence, paired
with the first closer occurrence at least 8 characters after it. -/

/-- The literal block opener `"```json\n"` (8 characters). -/
def fenceOpen : List Char := "```json\n".toList

/-- The literal block closer `"\n```"` (4 characters). -/
def fenceClose : List Char := "\n```".toList

/-- Model of `fullText.match(/```json\n([\s\S]*?)\n```/)`: `some (i, j)`
when the leftmost match starts at `i` (the opener occupying `[i, i+8)`)
and its closer occupies `[j, j+4)`; the capture group is `[i+8, j)`. -/
def regexMatch (t : List Char) : Option (Nat × Nat) :=
  match indexOfSub fenceOpen t with
  | none => none
  | some i =>
    match indexOfSub fenceClose (t.drop (i + 8)) with
    | none => none
    | some d => some (i, i + 8 + d)

/-- A complete fenced block of the response grammar sitting at positions
`i` (opener) and `j` (closer) of `t`. -/
def fencedBlockAt (t : List Char) (i j : Nat) : Prop :=
  startsWith fenceOpen (t.drop i) = true ∧ i + 8 ≤ j ∧
    startsWith fenceClose (t.drop j) = true

/-- Model of the parsing steps of `analyzeMarketImages` (lines 630-643):
scan for the fenced block, and if its captured body is non-empty (the
`jsonMatch[1]` truthiness test) and `JSON.parse` succeeds, return the
parsed value and the text with the whole match removed and trimmed;
otherwise return no value and the untouched text.  (The `console.error`
on decode failure is a log, not part of the returned data.) -/
def extractVisualization (fullText : List Char) : Option Json × List Char :=
  match regexMatch fullText with
  | none => (none, fullText)
  | some (i, j) =>
    let body := sliceFrom fullText (i + 8) (j - (i + 8))
    if body.isEmpty then (none, fullText)
    else
      match parseJson body with
      | none => (none, fullText)
      | some v =>
        (some v, trimStr (removeFirst (sliceFrom fullText i (j + 4 - i)) fullText))

/-! ## Grounding-link extraction (`analyzeMarketImages`, lines 623-628) -/

/-- The `web` field of a grounding chunk: an optional reference whose
`uri` and `title` may each be absent. -/
structure WebSource where
  uri : Option (List Char)
  title : Option (List Char)
  deriving DecidableEq

/-- One entry of `groundingMetadata.groundingChunks`. -/
structure GroundingChunk where
  web : Option WebSource
  deriving DecidableEq

/-- The filter `web => web && web.uri && web.title` of the source:
the reference exists and both fields are present and non-empty. -/
def webKept (w : Option WebSource) : Bool :=
  match w with
  | none => false
  | some ws => truthyOptStr ws.uri && truthyOptStr ws.title

/-- Model of the grounding-link pipeline of the source:
`chunks.map(c => c.web).filter(web => web && web.uri && web.title)
.map(web => ({title: web!.title!, url: web!.uri!}))`, producing
`(title, url)` pairs. -/
def groundingLinksOf (chunks : List GroundingChunk) : List (List Char × List Char) :=
  ((chunks.map (fun c => c.web)).filter webKept).map
    (fun w =>
      match w with
      | some ws => (ws.title.getD [], ws.uri.getD [])
      | none => ([], []))

/-- The specification's description of the same list: keep exactly the
chunks carrying a reference with a non-empty title and a non-empty URL,
in order, as `(title, url)` pairs. -/
def groundingLinksFiltered (chunks : List GroundingChunk) : List (List Char × List Char) :=
  chunks.filterMap
    (fun c =>
      match c.web with
      | some ws =>
        match ws.title, ws.uri with
        | some t, some u =>
          if !t.isEmpty && !u.isEmpty then some (t, u) else none
        | _, _ => none
      | none => none)

/-! ## Request building (`fileToPart`, the prompt, and the parts list) -/

/-- An uploaded image file: raw bytes plus declared media type. -/
structure ImgFile where
  data : List Nat
  mimeType : List Char
  deriving DecidableEq

/-- The base64 alphabet used by `FileReader.readAsDataURL`. -/
def b64Alphabet : List Char :=
  "ABCDEFGHIJKLMNOPQRSTUVWXYZabcdefghijklmnopqrstuvwxyz0123456789+/".toList

/-- The base64 digit for a 6-bit value. -/
def b64Ch (n : Nat) : Char :=
  b64Alphabet.getD n '='

/-- Standard base64 of a byte sequence (each byte reduced `% 256`), as
produced in the data URL that `fileToPart` splits apart. -/
def base64Encode : List Nat → List Char
  | [] => []
  | [a] => [b64Ch (a % 256 / 4), b64Ch (a % 4 * 16), '=', '=']
  | [a, b] =>
    [b64Ch (a % 256 / 4), b64Ch (a % 4 * 16 + b % 256 / 16), b64Ch (b % 16 * 4), '=']
  | a :: b :: c :: rest =>
    b64Ch (a % 256 / 4) :: b64Ch (a % 4 * 16 + b % 256 / 16) ::
      b64Ch (b % 16 * 4 + c % 256 / 64) :: b64Ch (c % 64) :: base64Encode rest

/-- One part of a multimodal request: inline image data tagged with its
media type, or plain text. -/
inductive Part where
  | image (data : List Char) (mimeType : List Char)
  | text (t : List Char)
  deriving DecidableEq

/-- Model of `fileToPart`: the file bytes become inline base64 data
tagged with the file's media type. -/
def fileToPart (f : ImgFile) : Part :=
  .image (base64Encode f.data) f.mimeType

/-- The instruction prompt of `analyzeMarketImages` (a template literal
interpolating the number of uploaded charts). -/
def promptText (n : Nat) : List Char :=
  ("\n    请对上传的这 " ++ toString n ++ " 张市场图表进行综合关联分析。\n" ++
   "\n" ++
   "    请严格按照以下步骤思考并输出报告：\n" ++
   "\n" ++
   "    ### 第一步：图表内容概览 (必须放在报告最前面)\n" ++
   "    请依次对每一张图片进行一句话精准概括，格式如下：\n" ++
   "    *   **图表 1 ([资产名称])**：[一句话概括当前形态或趋势，如：突破20日均线，量能放大]。\n" ++
   "    *   **图表 2 ([资产名称])**：[一句话概括...]\n" ++
   "    ...\n" ++
   "\n" ++
   "    ### 第二步：图表识别与搜索验证\n" ++
   "    *   **使用 Google Search** 搜索这些标的**今天**发生的突发新闻、政策变动或主力资金动向。\n" ++
   "    *   (在报告中明确指出你搜索到了什么关键信息来支撑你的分析)。\n" ++
   "\n" ++
   "    ### 第三步：生成深度分析报告\n" ++
   "    请按以下结构输出 Markdown：\n" ++
   "\n" ++
   "    ### 1. 核心本质总结 (Executive Summary)\n" ++
   "    (一句话概括多张图表共同反映的市场核心逻辑，例如：“在降息预期落空的背景下，科技股与避险资产出现罕见的同跌现象。”)\n" ++
   "\n" ++
   "    ### 2. 跨图表关联分析 (Correlation Logic)\n" ++
   "    (不要单独描述图A和图B。请分析它们的关系：A图的下跌是否导致了B图的上涨？它们是否受到同一个宏观因子的驱动？)\n" ++
   "\n" ++
   "    ### 3. 关键技术形态与搜索印证\n" ++
   "    (结合图表中的支撑/阻力位，以及搜索到的新闻。例如：“图表显示触及200日均线反弹，且搜索显示今日刚好公布了利好的回购计划。”)\n" ++
   "\n" ++
   "    ### 4. 交易心理与策略建议\n" ++
   "    (当前市场情绪是恐慌还是贪婪？主力在洗盘还是出货？)\n" ++
   "\n" ++
   "    最后，请务必生成 JSON 可视化数据块。\n" ++
   "  ").toList

/-- The parts list of the request sent by `analyzeMarketImages`:
`[...imageParts, { text: prompt }]`. -/
def buildRequestParts (files : List ImgFile) : List Part :=
  files.map fileToPart ++ [Part.text (promptText files.length)]

/-! ## The analysis call and the session state

The external call (`ai.models.generateContent`) is opaque: its outcome is
an input of the model.  The module-level `chatInstance` (a `Chat` whose
observable content is its seeded history; the fixed persona/config string
plays no role in any claim) is explicit state. -/

/-- Role tag of a conversation turn. -/
inductive Role where
  | user
  | model
  deriving DecidableEq

/-- One turn of a session's seeded history. -/
structure HistoryTurn where
  role : Role
  parts : List Part
  deriving DecidableEq

/-- The observable state of a `Chat` session: its accumulated history. -/
structure Session where
  history : List HistoryTurn
  deriving DecidableEq

/-- What the external generative call returned on success: the response
text (possibly absent) and the grounding chunks (possibly absent).  The
source defaults both: `response.text || ""` and `... || []`. -/
structure ServiceResponse where
  text : Option (List Char)
  chunks : Option (List GroundingChunk)
  deriving DecidableEq

/-- The `AnalysisResponse` record of `types.ts` as it exists at runtime:
the visualization field holds whatever `JSON.parse` produced (no shape
check), or nothing. -/
structure AnalysisResponse where
  markdownReport : List Char
  visualizationData : Option Json
  groundingLinks : List (List Char × List Char)

/-- Model of `analyzeMarketImages` (lines 569-660) after the external
call succeeded with `resp`: build the parts, extract grounding links,
parse the fenced block out of the text, and seed a fresh chat session
with exactly this request and this raw response.  Returns the
`AnalysisResponse` and the replacement session. -/
def analyzeMarketImages (files : List ImgFile) (resp : ServiceResponse) :
    AnalysisResponse × Session :=
  let imageParts := files.map fileToPart
  let prompt := promptText files.length
  let fullText := resp.text.getD []
  let parsed := extractVisualization fullText
  ({ markdownReport := parsed.2,
     visualizationData := parsed.1,
     groundingLinks := groundingLinksOf (resp.chunks.getD []) },
   { history := [⟨Role.user, imageParts ++ [Part.text prompt]⟩,
                 ⟨Role.model, [Part.text fullText]⟩] })

/-! ## The App UI state and `runAnalysis` (`App.tsx`) -/

/-- Status of the mocked email notification. -/
inductive EmailStatus where
  | idle
  | sending
  | sent
  deriving DecidableEq

/-- One entry of the chat transcript (`ChatMessage` in `types.ts`). -/
structure ChatMessage where
  id : List Char
  role : Role
  text : List Char
  timestamp : Nat
  deriving DecidableEq

/-- Decimal rendering of a timestamp, as `Date.now().toString()`. -/
def natToStr (n : Nat) : List Char :=
  (toString n).toList

/-- The `INITIAL_VISUALIZATION_DATA` constant of `constants.ts`, as the
JSON value the visualization state starts from. -/
def INITIAL_VISUALIZATION_DATA : Json :=
  .obj [("sentimentScore".toList, .num ⟨50, 0⟩),
        ("volatilityIndex".toList, .num ⟨30, 0⟩),
        ("marketPhase".toList, .str "等待数据".toList),
        ("keySectors".toList, .arr
          [.obj [("name".toList, .str "科技".toList),
                 ("trend".toList, .str "neutral".toList),
                 ("value".toList, .num ⟨0, 0⟩)],
           .obj [("name".toList, .str "金融".toList),
                 ("trend".toList, .str "neutral".toList),
                 ("value".toList, .num ⟨0, 0⟩)],
           .obj [("name".toList, .str "能源".toList),
                 ("trend".toList, .str "neutral".toList),
                 ("value".toList, .num ⟨0, 0⟩)],
           .obj [("name".toList, .str "医疗".toList),
                 ("trend".toList, .str "neutral".toList),
                 ("value".toList, .num ⟨0, 0⟩)]])]

/-- The UI state of `App.tsx` plus the module-level session and the chat
surface's local state (`input`, `loading`), with `alert` calls recorded
as presented notices.  Purely presentational fields (previews, drag
highlight) are omitted — no claim mentions them. -/
structure AppState where
  images : List ImgFile
  analyzing : Bool
  analysisResult : Option AnalysisResponse
  visualizationData : Json
  messages : List ChatMessage
  email : List Char
  emailStatus : EmailStatus
  session : Option Session
  notices : List (List Char)
  chatInput : List Char
  chatLoading : Bool

/-- Outcome of the awaited external call inside `runAnalysis`: either the
service responded, or the call threw (transport or service-level error,
surfaced as a rejected promise). -/
inductive AnalysisOutcome where
  | success (resp : ServiceResponse)
  | failure

/-- The alert text shown when the analysis call throws. -/
def analysisFailureNotice : List Char :=
  "分析失败。请检查您的 API Key 和网络连接。".toList

/-- The canned chat entry appended after a completed analysis. -/
def analysisDoneMessage (now : Nat) : ChatMessage :=
  { id := "analysis-".toList ++ natToStr now,
    role := .model,
    text := "我已识别图表内容，并结合最新的联网搜索信息完成了关联分析。请查看中间的详细报告。".toList,
    timestamp := now }

/-- Model of the `runAnalysis` handler (lines 151-186).  `now` stands for
`Date.now()` (the handler's clock reads are collapsed to one instant).
The handler returns early on an empty image set; otherwise it sets
`analyzing`, clears the displayed result and the email status, runs the
call, and on success stores the result, conditionally updates the
visualization (JavaScript truthiness of `result.visualizationData`),
appends the canned chat entry, and starts the mock email send when the
email field is non-blank; on failure it alerts once.  `finally` resets
`analyzing`. -/
def runAnalysis (now : Nat) (outcome : AnalysisOutcome) (s : AppState) : AppState :=
  if s.images.length = 0 then s
  else
    let s0 := { s with analyzing := true, analysisResult := none,
                       emailStatus := EmailStatus.idle }
    match outcome with
    | .failure =>
      { s0 with notices := s0.notices ++ [analysisFailureNotice],
                analyzing := false }
    | .success resp =>
      let res := analyzeMarketImages s0.images resp
      let s1 := { s0 with analysisResult := some res.1, session := some res.2 }
      let s2 :=
        match res.1.visualizationData with
        | some v => if jsTruthy v then { s1 with visualizationData := v } else s1
        | none => s1
      let s3 := { s2 with messages := s2.messages ++ [analysisDoneMessage now] }
      let s4 :=
        if !s3.email.isEmpty && !(trimStr s3.email).isEmpty then
          { s3 with emailStatus := EmailStatus.sending }
        else s3
      { s4 with analyzing := false }

/-! ## Chat continuation (`sendChatMessage` and `handleSend`) -/

/-- Outcome of the awaited `chatInstance.sendMessage` call: the service
replied with (possibly absent or empty) text, or the call threw. -/
inductive ChatOutcome where
  | reply (t : Option (List Char))
  | error

/-- Fallback returned by `sendChatMessage` when the reply text is empty
or absent (`response.text || "我无法生成回复。"`). -/
def emptyReplyFallback : List Char :=
  "我无法生成回复。".toList

/-- The fixed transcript entry text appended by `handleSend`'s catch. -/
def chatErrorFallback : List Char :=
  "抱歉，遇到错误。请重试。".toList

/-- Model of `sendChatMessage` (lines 662-674): if no session exists, a
bare one (no seeded history) is created first; then the message is sent
on the session.  The service credential is assumed configured (`getAI`
succeeding), as everywhere a call is actually issued.  Returns the
session state after the call and either the reply text (with the
empty-reply fallback substituted) or the propagated exception — the
function itself has no catch. -/
def sendChatMessage (session : Option Session) (outcome : ChatOutcome) :
    Option Session × Except Unit (List Char) :=
  let inst : Session :=
    match session with
    | none => { history := [] }
    | some c => c
  match outcome with
  | .error => (some inst, .error ())
  | .reply t =>
    (some inst,
     .ok (match t with
          | none => emptyReplyFallback
          | some txt => if txt.isEmpty then emptyReplyFallback else txt))

/-- The text that ends up in the transcript's assistant entry for a given
chat outcome: the reply (or the empty-reply fallback) on success, the
fixed error fallback when the call threw. -/
def chatReplyText : ChatOutcome → List Char
  | .error => chatErrorFallback
  | .reply none => emptyReplyFallback
  | .reply (some t) => if t.isEmpty then emptyReplyFallback else t

/-- Model of the `handleSend` handler of `ChatInterface.tsx` (lines
26-61).  `now` stands for `Date.now()`.  A blank (all-whitespace) input
or an in-flight call returns unchanged; otherwise the user entry is
appended, the input cleared, the chat operation invoked, and — reply or
error — exactly one assistant entry is appended and `loading` reset; the
catch converts the exception, so no exception escapes the handler. -/
def handleSend (now : Nat) (outcome : ChatOutcome) (s : AppState) : AppState :=
  if (trimStr s.chatInput).isEmpty || s.chatLoading then s
  else
    let userMsg : ChatMessage :=
      { id := natToStr now, role := .user, text := s.chatInput, timestamp := now }
    let s1 := { s with messages := s.messages ++ [userMsg], chatInput := [],
                       chatLoading := true }
    let call := sendChatMessage s1.session outcome
    match call.2 with
    | .ok t =>
      { s1 with session := call.1,
                messages := s1.messages ++
                  [{ id := natToStr (now + 1), role := .model, text := t,
                     timestamp := now }],
                chatLoading := false }
    | .error _ =>
      { s1 with session := call.1,
                messages := s1.messages ++
                  [{ id := natToStr (now + 1), role := .model,
                     text := chatErrorFallback, timestamp := now }],
                chatLoading := false }

/-! ## Concrete sample data

Concrete inputs used to witness the satisfiability of the claim
hypotheses.  `c1SampleText` is the sample scenario of the specification
(report text followed by one valid fenced block). -/

/-- A one-image upload used by several concrete states. -/
def sampleFile : ImgFile :=
  ⟨[104, 105], "image/png".toList⟩

/-- The specification's sample response text: a short report followed by
one valid fenced structured block. -/
def c1SampleText : List Char :=
  ("### Summary\nBullish.\n\n```json\n\x7b\"sentimentScore\":72,\"volatilityIndex\":40,\"marketPhase\":\"Markup\",\"keySectors\":[]\x7d\n```").toList

/-- The JSON value encoded in `c1SampleText`'s fenced block. -/
def c1SampleJson : Json :=
  .obj [("sentimentScore".toList, .num ⟨72, 0⟩),
        ("volatilityIndex".toList, .num ⟨40, 0⟩),
        ("marketPhase".toList, .str "Markup".toList),
        ("keySectors".toList, .arr [])]

/-- A response text with two fenced blocks. -/
def c5SampleText : List Char :=
  ("a\n```json\n[1]\n```\nmid\n```json\n[2]\n```").toList

/-- A response text whose single fenced block has an unparseable body. -/
def c6SampleText : List Char :=
  ("x\n```json\nnope\n```").toList

/-- A prior analysis result displayed before a failing re-run. -/
def c2Response : AnalysisResponse :=
  { markdownReport := "old report".toList,
    visualizationData := none,
    groundingLinks := [] }

/-- A state holding a displayed result, a sent email notice and one
uploaded image, about to re-run the analysis. -/
def c2State : AppState :=
  { images := [sampleFile], analyzing := false,
    analysisResult := some c2Response,
    visualizationData := INITIAL_VISUALIZATION_DATA, messages := [],
    email := "a@b.c".toList, emailStatus := .sent, session := none,
    notices := [], chatInput := [], chatLoading := false }

/-- A fresh state with one uploaded image. -/
def c3State : AppState :=
  { images := [sampleFile], analyzing := false, analysisResult := none,
    visualizationData := INITIAL_VISUALIZATION_DATA, messages := [],
    email := [], emailStatus := .idle, session := none, notices := [],
    chatInput := [], chatLoading := false }

/-- A service response whose text has no fenced block. -/
def c3Resp : ServiceResponse :=
  ⟨some ("no block here".toList), none⟩

/-- A state in which the user chats before any analysis has run. -/
def c4State : AppState :=
  { images := [], analyzing := false, analysisResult := none,
    visualizationData := INITIAL_VISUALIZATION_DATA, messages := [],
    email := [], emailStatus := .idle, session := none, notices := [],
    chatInput := "hi".toList, chatLoading := false }

/-! ## Lemmas about the string primitives -/

theorem startsWith_iff (p s : List Char) :
    startsWith p s = true ↔ ∃ t, s = p ++ t := by
  induction p generalizing s with
  | nil =>
    simp [startsWith]
  | cons a ps ih =>
    cases s with
    | nil => simp [startsWith]
    | cons c cs =>
      simp only [startsWith, Bool.and_eq_true, beq_iff_eq, ih, List.cons_append,
        List.cons.injEq]
      constructor
      · rintro ⟨rfl, t, rfl⟩
        exact ⟨t, rfl, rfl⟩
      · rintro ⟨t, rfl, rfl⟩
        exact ⟨rfl, t, rfl⟩

theorem startsWith_length {p s : List Char} (h : startsWith p s = true) :
    p.length ≤ s.length := by
  obtain ⟨t, rfl⟩ := (startsWith_iff p s).1 h
  simp

theorem startsWith_take (s : List Char) (n : Nat) :
    startsWith (s.take n) s = true :=
  (startsWith_iff _ _).2 ⟨s.drop n, (List.take_append_drop n s).symm⟩

theorem startsWith_of_append {a x s : List Char}
    (h : startsWith (a ++ x) s = true) : startsWith a s = true := by
  obtain ⟨t, rfl⟩ := (startsWith_iff _ _).1 h
  exact (startsWith_iff _ _).2 ⟨x ++ t, by simp⟩

theorem indexOfSub_spec {pat s : List Char} {i : Nat}
    (h : indexOfSub pat s = some i) :
    startsWith pat (s.drop i) = true ∧
      ∀ p, p < i → startsWith pat (s.drop p) = false := by
  induction s generalizing i with
  | nil =>
    by_cases hsw : startsWith pat [] = true
    · simp only [indexOfSub, if_pos hsw, Option.some.injEq] at h
      subst h
      exact ⟨hsw, fun p hp => absurd hp (Nat.not_lt_zero p)⟩
    · simp [indexOfSub, hsw] at h
  | cons c rest ih =>
    by_cases hsw : startsWith pat (c :: rest) = true
    · simp only [indexOfSub, if_pos hsw, Option.some.injEq] at h
      subst h
      exact ⟨hsw, fun p hp => absurd hp (Nat.not_lt_zero p)⟩
    · simp only [indexOfSub, if_neg hsw, Option.map_eq_some'] at h
      obtain ⟨i0, hi0, rfl⟩ := h
      obtain ⟨h1, h2⟩ := ih hi0
      refine ⟨h1, ?_⟩
      intro p hp
      cases p with
      | zero =>
        simpa using Bool.eq_false_iff.2 hsw
      | succ q =>
        exact h2 q (Nat.lt_of_succ_lt_succ hp)

theorem indexOfSub_eq {pat s : List Char} {i : Nat}
    (h1 : startsWith pat (s.drop i) = true)
    (h2 : ∀ p, p < i → startsWith pat (s.drop p) = false) :
    indexOfSub pat s = some i := by
  induction s generalizing i with
  | nil =>
    have hi : i = 0 := by
      by_contra hne
      have h0 := h2 0 (Nat.pos_of_ne_zero hne)
      rw [List.drop_nil] at h0
      rw [List.drop_nil] at h1
      rw [h1] at h0
      exact Bool.noConfusion h0
    subst hi
    rw [List.drop_nil] at h1
    simp [indexOfSub, h1]
  | cons c rest ih =>
    cases i with
    | zero =>
      rw [List.drop_zero] at h1
      simp [indexOfSub, h1]
    | succ m =>
      have h0 : startsWith pat (c :: rest) = false := by
        have := h2 0 (Nat.succ_pos m)
        simpa using this
      have hm : indexOfSub pat rest = some m := by
        apply ih
        · simpa using h1
        · intro p hp
          have := h2 (p + 1) (Nat.succ_lt_succ hp)
          simpa using this
      simp [indexOfSub, Bool.eq_false_iff.1 h0, hm]

theorem indexOfSub_isSome {pat s : List Char} {n : Nat}
    (h : startsWith pat (s.drop n) = true) :
    (indexOfSub pat s).isSome = true := by
  induction s generalizing n with
  | nil =>
    rw [List.drop_nil] at h
    simp [indexOfSub, h]
  | cons c rest ih =>
    by_cases hsw : startsWith pat (c :: rest) = true
    · simp [indexOfSub, hsw]
    · cases n with
      | zero =>
        rw [List.drop_zero] at h
        exact absurd h hsw
      | succ m =>
        have := ih (n := m) (by simpa using h)
        simp only [indexOfSub, if_neg hsw, Option.isSome_map']
        exact this

theorem removeFirst_of_indexOfSub {pat s : List Char} {i : Nat}
    (h : indexOfSub pat s = some i) :
    removeFirst pat s = s.take i ++ s.drop (i + pat.length) := by
  simp [removeFirst, h]

theorem containsSub_of_decomp {b : List Char} (u v : List Char) :
    containsSub b (u ++ b ++ v) = true := by
  unfold containsSub
  apply indexOfSub_isSome (n := u.length)
  rw [List.append_assoc, List.drop_left]
  exact (startsWith_iff _ _).2 ⟨v, rfl⟩

theorem parseJson_nil : parseJson [] = none := rfl

/-! ## Lemmas about the fenced-block scanner -/

theorem regexMatch_spec {t : List Char} {i j : Nat}
    (h : regexMatch t = some (i, j)) :
    indexOfSub fenceOpen t = some i ∧
      ∃ d, indexOfSub fenceClose (t.drop (i + 8)) = some d ∧ j = i + 8 + d := by
  unfold regexMatch at h
  split at h
  · exact absurd h (by simp)
  next i0 h1 =>
    split at h
    · exact absurd h (by simp)
    next d h2 =>
      simp only [Option.some.injEq, Prod.mk.injEq] at h
      obtain ⟨rfl, rfl⟩ := h
      exact ⟨h1, d, h2, rfl⟩

theorem regexMatch_bounds {t : List Char} {i j : Nat}
    (h : regexMatch t = some (i, j)) :
    i + 8 ≤ j ∧ j + 4 ≤ t.length := by
  obtain ⟨h1, d, h2, rfl⟩ := regexMatch_spec h
  refine ⟨by omega, ?_⟩
  have hs := (indexOfSub_spec h2).1
  rw [List.drop_drop] at hs
  have hl := startsWith_length hs
  rw [show fenceClose.length = 4 from rfl, List.length_drop] at hl
  omega

theorem removeFirst_match {t : List Char} {i j : Nat}
    (h : regexMatch t = some (i, j)) :
    removeFirst (sliceFrom t i (j + 4 - i)) t = t.take i ++ t.drop (j + 4) := by
  obtain ⟨hlo, hlen⟩ := regexMatch_bounds h
  obtain ⟨h1, d, h2, hj⟩ := regexMatch_spec h
  obtain ⟨hswi, hmin⟩ := indexOfSub_spec h1
  obtain ⟨r, hr⟩ := (startsWith_iff _ _).1 hswi
  have hdecomp : sliceFrom t i (j + 4 - i) = fenceOpen ++ r.take (j + 4 - i - 8) := by
    unfold sliceFrom
    rw [hr, List.take_append_eq_append_take,
      List.take_of_length_le (by rw [show fenceOpen.length = 8 from rfl]; omega),
      show fenceOpen.length = 8 from rfl]
  have hstartm : startsWith (sliceFrom t i (j + 4 - i)) (t.drop i) = true := by
    unfold sliceFrom
    exact startsWith_take _ _
  have hminm : ∀ p, p < i →
      startsWith (sliceFrom t i (j + 4 - i)) (t.drop p) = false := by
    intro p hp
    by_contra hcon
    have htrue : startsWith (sliceFrom t i (j + 4 - i)) (t.drop p) = true :=
      eq_true_of_ne_false hcon
    rw [hdecomp] at htrue
    have := startsWith_of_append htrue
    rw [hmin p hp] at this
    exact Bool.noConfusion this
  have him : indexOfSub (sliceFrom t i (j + 4 - i)) t = some i :=
    indexOfSub_eq hstartm hminm
  have hmlen : (sliceFrom t i (j + 4 - i)).length = j + 4 - i := by
    unfold sliceFrom
    rw [List.length_take, List.length_drop]
    omega
  rw [removeFirst_of_indexOfSub him, hmlen, show i + (j + 4 - i) = j + 4 by omega]

theorem extract_success {t : List Char} {i j : Nat} {v : Json}
    (hm : regexMatch t = some (i, j))
    (hp : parseJson (sliceFrom t (i + 8) (j - (i + 8))) = some v) :
    extractVisualization t = (some v, trimStr (t.take i ++ t.drop (j + 4))) := by
  have hb : (sliceFrom t (i + 8) (j - (i + 8))).isEmpty = false := by
    cases hE : sliceFrom t (i + 8) (j - (i + 8)) with
    | nil => rw [hE, parseJson_nil] at hp; exact absurd hp (by simp)
    | cons a l => simp
  unfold extractVisualization
  rw [hm]
  simp only [hb, Bool.false_eq_true, if_false, hp]
  rw [removeFirst_match hm]

theorem extract_none_report {t : List Char}
    (h : (extractVisualization t).1 = none) :
    (extractVisualization t).2 = t := by
  cases hm : regexMatch t with
  | none => simp [extractVisualization, hm]
  | some ij =>
    obtain ⟨i, j⟩ := ij
    by_cases hb : (sliceFrom t (i + 8) (j - (i + 8))).isEmpty = true
    · simp [extractVisualization, hm, hb]
    · rw [Bool.not_eq_true] at hb
      cases hp : parseJson (sliceFrom t (i + 8) (j - (i + 8))) with
      | none => simp [extractVisualization, hm, hb, hp]
      | some v =>
        exfalso
        have hv : (extractVisualization t).1 = some v := by
          simp [extractVisualization, hm, hb, hp]
        rw [h] at hv
        exact Option.noConfusion hv

theorem regexMatch_none_of_no_block {t : List Char}
    (h : ∀ i j, ¬ fencedBlockAt t i j) : regexMatch t = none := by
  unfold regexMatch
  cases h1 : indexOfSub fenceOpen t with
  | none => rfl
  | some i =>
    cases h2 : indexOfSub fenceClose (t.drop (i + 8)) with
    | none => simp [h2]
    | some d =>
      exfalso
      apply h i (i + 8 + d)
      refine ⟨(indexOfSub_spec h1).1, by omega, ?_⟩
      have hs := (indexOfSub_spec h2).1
      rwa [List.drop_drop] at hs

/-! ## Lemmas about trimming and block survival -/

theorem headD_append {l : List Char} (z : List Char) (d : Char) (h : l ≠ []) :
    (l ++ z).headD d = l.headD d := by
  cases l with
  | nil => exact absurd rfl h
  | cons c cs => rfl

theorem dropWhile_keeps {b : List Char} (v : List Char) (hb : b ≠ [])
    (hh : isTrimWS (b.headD ' ') = false) (u : List Char) :
    ∃ u2, (u ++ (b ++ v)).dropWhile isTrimWS = u2 ++ (b ++ v) := by
  induction u with
  | nil =>
    refine ⟨[], ?_⟩
    cases b with
    | nil => exact absurd rfl hb
    | cons c r =>
      simp only [List.nil_append, List.cons_append]
      rw [List.dropWhile_cons_of_neg]
      intro hc
      rw [show ((c :: r).headD ' ') = c from rfl] at hh
      rw [hc] at hh
      exact Bool.noConfusion hh
  | cons a u ih =>
    by_cases ha : isTrimWS a = true
    · obtain ⟨u2, hu2⟩ := ih
      refine ⟨u2, ?_⟩
      rw [List.cons_append, List.dropWhile_cons_of_pos ha, hu2]
    · refine ⟨a :: u, ?_⟩
      rw [List.cons_append, List.dropWhile_cons_of_neg ha]

theorem trimStr_keeps {b : List Char} (u v : List Char) (hb : b ≠ [])
    (hh : isTrimWS (b.headD ' ') = false)
    (hl : isTrimWS (b.reverse.headD ' ') = false) :
    ∃ u2 v2, trimStr (u ++ b ++ v) = u2 ++ b ++ v2 := by
  have hbr : b.reverse ≠ [] := fun h0 => hb (List.reverse_eq_nil_iff.1 h0)
  obtain ⟨u1, e1⟩ := dropWhile_keeps v hb hh u
  unfold trimStr
  rw [List.append_assoc, e1]
  rw [show (u1 ++ (b ++ v)).reverse = v.reverse ++ (b.reverse ++ u1.reverse) by
    simp [List.reverse_append]]
  obtain ⟨w, e2⟩ := dropWhile_keeps u1.reverse hbr hl v.reverse
  rw [e2]
  refine ⟨u1, w.reverse, ?_⟩
  simp [List.reverse_append, List.append_assoc]

theorem fencedBlockAt_len {t : List Char} {i2 j2 : Nat}
    (h : fencedBlockAt t i2 j2) : j2 + 4 ≤ t.length := by
  obtain ⟨_, _, hc⟩ := h
  have hl := startsWith_length hc
  rw [show fenceClose.length = 4 from rfl, List.length_drop] at hl
  omega

theorem block_slice_opens {t : List Char} {i2 j2 : Nat}
    (h : fencedBlockAt t i2 j2) :
    ∃ z, sliceFrom t i2 (j2 + 4 - i2) = fenceOpen ++ z := by
  obtain ⟨ho, hij, _⟩ := h
  obtain ⟨r2, hr2⟩ := (startsWith_iff _ _).1 ho
  refine ⟨r2.take (j2 + 4 - i2 - 8), ?_⟩
  unfold sliceFrom
  rw [hr2, List.take_append_eq_append_take,
    List.take_of_length_le (by rw [show fenceOpen.length = 8 from rfl]; omega),
    show fenceOpen.length = 8 from rfl]

theorem block_slice_closes {t : List Char} {i2 j2 : Nat}
    (h : fencedBlockAt t i2 j2) :
    ∃ m, sliceFrom t i2 (j2 + 4 - i2) = m ++ fenceClose := by
  have hlen := fencedBlockAt_len h
  obtain ⟨_, hij, hc⟩ := h
  obtain ⟨w2, hw2⟩ := (startsWith_iff _ _).1 hc
  have hsplit : t.drop i2 = (t.drop i2).take (j2 - i2) ++ (fenceClose ++ w2) := by
    conv_lhs => rw [← List.take_append_drop (j2 - i2) (t.drop i2)]
    rw [List.drop_drop, show i2 + (j2 - i2) = j2 by omega, hw2]
  have hAlen : ((t.drop i2).take (j2 - i2)).length = j2 - i2 := by
    rw [List.length_take, List.length_drop]
    omega
  refine ⟨(t.drop i2).take (j2 - i2), ?_⟩
  unfold sliceFrom
  have e1 : (t.drop i2).take (j2 + 4 - i2) =
      ((t.drop i2).take (j2 - i2)).take (j2 + 4 - i2) ++
        (fenceClose ++ w2).take
          ((j2 + 4 - i2) - ((t.drop i2).take (j2 - i2)).length) := by
    conv_lhs => rw [hsplit]
    exact List.take_append_eq_append_take
  have e2 : ((t.drop i2).take (j2 - i2)).take (j2 + 4 - i2) =
      (t.drop i2).take (j2 - i2) :=
    List.take_of_length_le (by rw [hAlen]; omega)
  have e3 : (fenceClose ++ w2).take 4 = fenceClose := rfl
  rw [e1, hAlen, e2, show j2 + 4 - i2 - (j2 - i2) = 4 by omega, e3]

theorem report_keeps_block {t : List Char} {i j i2 j2 : Nat}
    (h2 : fencedBlockAt t i2 j2) (hafter : j + 4 ≤ i2) :
    containsSub (sliceFrom t i2 (j2 + 4 - i2))
      (trimStr (t.take i ++ t.drop (j + 4))) = true := by
  obtain ⟨z, hz⟩ := block_slice_opens h2
  obtain ⟨m, hmm⟩ := block_slice_closes h2
  have hbne : sliceFrom t i2 (j2 + 4 - i2) ≠ [] := by
    rw [hz]
    intro h0
    exact absurd (List.append_eq_nil.1 h0).1 (by decide)
  have hhead : isTrimWS ((sliceFrom t i2 (j2 + 4 - i2)).headD ' ') = false := by
    rw [hz, headD_append z ' ' (by decide)]
    decide
  have hlast : isTrimWS ((sliceFrom t i2 (j2 + 4 - i2)).reverse.headD ' ') = false := by
    rw [hmm, List.reverse_append, headD_append m.reverse ' ' (by decide)]
    decide
  have base : t.drop (j + 4) =
      (t.drop (j + 4)).take (i2 - (j + 4)) ++ t.drop i2 := by
    conv_lhs => rw [← List.take_append_drop (i2 - (j + 4)) (t.drop (j + 4))]
    rw [List.drop_drop, show j + 4 + (i2 - (j + 4)) = i2 by omega]
  have base2 : t.drop i2 =
      sliceFrom t i2 (j2 + 4 - i2) ++ (t.drop i2).drop (j2 + 4 - i2) := by
    conv_lhs => rw [← List.take_append_drop (j2 + 4 - i2) (t.drop i2)]
    rfl
  have hdec : t.take i ++ t.drop (j + 4) =
      (t.take i ++ (t.drop (j + 4)).take (i2 - (j + 4))) ++
        sliceFrom t i2 (j2 + 4 - i2) ++ (t.drop i2).drop (j2 + 4 - i2) := by
    conv_lhs => rw [base, base2]
    simp [List.append_assoc]
  rw [hdec]
  obtain ⟨u2, v2, he⟩ :=
    trimStr_keeps (t.take i ++ (t.drop (j + 4)).take (i2 - (j + 4)))
      ((t.drop i2).drop (j2 + 4 - i2)) hbne hhead hlast
  rw [he]
  exact containsSub_of_decomp u2 v2

/-! ## The grounding-link list equals its specification -/

theorem groundingLinks_eq (chunks : List GroundingChunk) :
    groundingLinksOf chunks = groundingLinksFiltered chunks := by
  induction chunks with
  | nil => rfl
  | cons c rest ih =>
    obtain ⟨w⟩ := c
    cases w with
    | none =>
      simpa [groundingLinksOf, groundingLinksFiltered, List.filter_cons,
        List.filterMap_cons, webKept] using ih
    | some ws =>
      obtain ⟨uo, tio⟩ := ws
      cases uo with
      | none =>
        simpa [groundingLinksOf, groundingLinksFiltered, List.filter_cons,
          List.filterMap_cons, webKept, truthyOptStr] using ih
      | some u =>
        cases tio with
        | none =>
          simpa [groundingLinksOf, groundingLinksFiltered, List.filter_cons,
            List.filterMap_cons, webKept, truthyOptStr] using ih
        | some ti =>
          by_cases hu : u = [] <;> by_cases ht : ti = [] <;>
            simpa [groundingLinksOf, groundingLinksFiltered, List.filter_cons,
              List.filterMap_cons, webKept, truthyOptStr, hu, ht] using ih

/-! ## Helper lemmas for the state machines -/

theorem runAnalysis_noblock {now : Nat} {resp : ServiceResponse} {s : AppState}
    (him : ¬ s.images.length = 0)
    (hnb : (extractVisualization (resp.text.getD [])).1 = none) :
    (runAnalysis now (.success resp) s).visualizationData = s.visualizationData ∧
      (runAnalysis now (.success resp) s).analysisResult =
        some { markdownReport := resp.text.getD [],
               visualizationData := none,
               groundingLinks := groundingLinksOf (resp.chunks.getD []) } := by
  have hrep := extract_none_report hnb
  constructor
  · simp [runAnalysis, him, analyzeMarketImages, hnb]
    split <;> rfl
  · simp [runAnalysis, him, analyzeMarketImages, hnb]
    split <;> simp [hrep]

/-! ## The claims -/

/-- C1: for every raw response text containing a well-formed fenced
structured block — opened by the literal marker plus a newline at index
`i`, closed by the (newline-preceded) closing fence at index `j` — whose
body decodes as a record of the `VisualizationData` shape, the parser in
`analyzeMarketImages` returns that decoded value as `visualizationData`
and `markdownReport` equal to the original text with the fenced block and
its delimiters removed and the result trimmed of surrounding whitespace. -/
theorem c1_parser_roundtrip (t : List Char) (i j : Nat) (v : Json) (r : VisRecord)
    (hm : regexMatch t = some (i, j))
    (hp : parseJson (sliceFrom t (i + 8) (j - (i + 8))) = some v)
    (hr : asVisRecord v = some r) :
    (extractVisualization t).1 = some v ∧ asVisRecord v = some r ∧
      (extractVisualization t).2 = trimStr (t.take i ++ t.drop (j + 4)) := by
  have h := extract_success hm hp
  exact ⟨by rw [h], hr, by rw [h]⟩

/-- Witness for C1 at the specification's sample scenario. -/
theorem c1_parser_roundtrip_witness :
    (extractVisualization c1SampleText).1 = some c1SampleJson ∧
      asVisRecord c1SampleJson = some ⟨⟨72, 0⟩, ⟨40, 0⟩, "Markup".toList, []⟩ ∧
      (extractVisualization c1SampleText).2 =
        trimStr (c1SampleText.take 22 ++ c1SampleText.drop 115) :=
  c1_parser_roundtrip c1SampleText 22 111 c1SampleJson
    ⟨⟨72, 0⟩, ⟨40, 0⟩, "Markup".toList, []⟩ rfl rfl rfl

/-- C5: for every raw response text with two or more fenced blocks, only
the first match of the scan is decoded and (on successful decode)
stripped from the report; any block lying after the first match remains
embedded verbatim in the report text. -/
theorem c5_first_block_only (t : List Char) (i j i2 j2 : Nat) (v : Json)
    (hm : regexMatch t = some (i, j))
    (hp : parseJson (sliceFrom t (i + 8) (j - (i + 8))) = some v)
    (h2 : fencedBlockAt t i2 j2) (hafter : j + 4 ≤ i2) :
    extractVisualization t = (some v, trimStr (t.take i ++ t.drop (j + 4))) ∧
      containsSub (sliceFrom t i2 (j2 + 4 - i2))
        ((extractVisualization t).2) = true := by
  have h := extract_success hm hp
  refine ⟨h, ?_⟩
  rw [h]
  exact report_keeps_block h2 hafter

/-- Witness for C5 on a two-block text. -/
theorem c5_first_block_only_witness :
    extractVisualization c5SampleText =
        (some (Json.arr [Json.num ⟨1, 0⟩]),
         trimStr (c5SampleText.take 2 ++ c5SampleText.drop 17)) ∧
      containsSub (sliceFrom c5SampleText 22 (33 + 4 - 22))
        ((extractVisualization c5SampleText).2) = true :=
  c5_first_block_only c5SampleText 2 13 22 33 (Json.arr [Json.num ⟨1, 0⟩])
    rfl rfl ⟨rfl, by omega, rfl⟩ (by omega)

/-- C6: for every raw response text whose fenced block (the one the
scanner finds) has a body that is not valid structured data — `JSON.parse`
fails on it — the parser returns no visualization value and the report
equal to the original input text completely untouched.  (The source also
logs the failure via `console.error`; logging is not part of the returned
data.) -/
theorem c6_malformed_block (t : List Char) (i j : Nat)
    (hm : regexMatch t = some (i, j))
    (hp : parseJson (sliceFrom t (i + 8) (j - (i + 8))) = none) :
    extractVisualization t = (none, t) := by
  by_cases hb : (sliceFrom t (i + 8) (j - (i + 8))).isEmpty = true
  · simp [extractVisualization, hm, hb]
  · rw [Bool.not_eq_true] at hb
    simp [extractVisualization, hm, hb, hp]

/-- Witness for C6 on a block whose body is not JSON. -/
theorem c6_malformed_block_witness :
    extractVisualization c6SampleText = (none, c6SampleText) :=
  c6_malformed_block c6SampleText 2 14 rfl rfl

/-- C7: for every raw response text containing no complete fenced
structured block at all, the parser returns the input verbatim as the
report and no visualization value. -/
theorem c7_no_block (t : List Char) (h : ∀ i j, ¬ fencedBlockAt t i j) :
    extractVisualization t = (none, t) := by
  unfold extractVisualization
  rw [regexMatch_none_of_no_block h]

/-- Witness for C7 on a plain text. -/
theorem c7_no_block_witness :
    extractVisualization ("hello".toList) = (none, "hello".toList) := by
  apply c7_no_block
  intro i j hblk
  obtain ⟨ho, _, _⟩ := hblk
  have hl := startsWith_length ho
  rw [show fenceOpen.length = 8 from rfl, List.length_drop,
    show ("hello".toList).length = 5 from rfl] at hl
  omega

/-- C8: for every list of citation chunks in the response grounding
metadata, the produced grounding-link list contains exactly the entries
with both a non-empty title and a non-empty URL, dropping malformed
entries silently and preserving the order of the remainder. -/
theorem c8_grounding_filter (chunks : List GroundingChunk) :
    groundingLinksOf chunks = groundingLinksFiltered chunks :=
  groundingLinks_eq chunks

/-- C9: for every non-empty ordered list of image files, the request
parts built by `analyzeMarketImages` are each image encoded as inline
data tagged with its media type, in input order, followed by exactly one
instruction text part, so the part count is the image count plus one. -/
theorem c9_request_parts (files : List ImgFile) (h : files ≠ []) :
    (buildRequestParts files).length = files.length + 1 ∧
      (∀ k, k < files.length →
        ∃ f, files[k]? = some f ∧
          (buildRequestParts files)[k]? =
            some (Part.image (base64Encode f.data) f.mimeType)) ∧
      (buildRequestParts files)[files.length]? =
        some (Part.text (promptText files.length)) := by
  refine ⟨by simp [buildRequestParts], ?_, ?_⟩
  · intro k hk
    refine ⟨files[k], List.getElem?_eq_getElem hk, ?_⟩
    unfold buildRequestParts
    rw [List.getElem?_append_left (by simpa using hk), List.getElem?_map,
      List.getElem?_eq_getElem hk]
    rfl
  · unfold buildRequestParts
    have hlm : files.length = (files.map fileToPart).length := by simp
    rw [hlm, List.getElem?_concat_length]

/-- Witness for C9 on a one-image list. -/
theorem c9_request_parts_witness :
    (buildRequestParts [sampleFile]).length = 2 ∧
      (buildRequestParts [sampleFile])[0]? =
        some (Part.image (base64Encode sampleFile.data) sampleFile.mimeType) ∧
      (buildRequestParts [sampleFile])[1]? =
        some (Part.text (promptText 1)) := by
  obtain ⟨h1, h2, h3⟩ := c9_request_parts [sampleFile] (by simp)
  obtain ⟨f, hf, hp⟩ := h2 0 (by simp)
  have hf2 : f = sampleFile := by
    have hev : ([sampleFile])[0]? = some sampleFile := rfl
    rw [hev] at hf
    exact (Option.some.inj hf).symm
  rw [hf2] at hp
  exact ⟨h1, hp, h3⟩

/-- C10: every successful `sendChatMessage` call returns a non-empty
string — when the service reply text is empty or absent, the fixed
fallback is returned instead of the empty string. -/
theorem c10_nonempty_reply (sess : Option Session) (t : Option (List Char))
    (u : List Char)
    (h : (sendChatMessage sess (ChatOutcome.reply t)).2 = Except.ok u) :
    u ≠ [] := by
  cases t with
  | none =>
    have hu : emptyReplyFallback = u := by
      simpa [sendChatMessage] using h
    rw [← hu]
    decide
  | some txt =>
    cases txt with
    | nil =>
      have hu : emptyReplyFallback = u := by
        simpa [sendChatMessage] using h
      rw [← hu]
      decide
    | cons a l =>
      have hu : a :: l = u := by
        simpa [sendChatMessage] using h
      rw [← hu]
      simp

/-- Witness for C10 at an empty service reply. -/
theorem c10_nonempty_reply_witness :
    (sendChatMessage none (ChatOutcome.reply (some []))).2 =
        Except.ok emptyReplyFallback ∧
      emptyReplyFallback ≠ [] :=
  ⟨rfl, c10_nonempty_reply none (some []) emptyReplyFallback rfl⟩

/-- C4: for every free-text question asked before any analysis has run
(no session exists), the chat flow does not fail: a bare session with no
seeded history is lazily created, the transcript advances by the user
entry plus exactly one assistant entry — the reply text, or the fixed
fallback on a service error — and no exception escapes `handleSend`
(both outcomes of the call produce a final state). -/
theorem c4_chat_before_analysis (now : Nat) (outcome : ChatOutcome) (s : AppState)
    (hs : s.session = none)
    (hin : (trimStr s.chatInput).isEmpty = false)
    (hld : s.chatLoading = false) :
    (handleSend now outcome s).session = some { history := [] } ∧
      (handleSend now outcome s).messages = s.messages ++
        [{ id := natToStr now, role := Role.user, text := s.chatInput,
           timestamp := now },
         { id := natToStr (now + 1), role := Role.model,
           text := chatReplyText outcome, timestamp := now }] ∧
      (handleSend now outcome s).chatLoading = false := by
  cases outcome with
  | error =>
    refine ⟨?_, ?_, ?_⟩ <;>
      simp [handleSend, hin, hld, sendChatMessage, hs, chatReplyText]
  | reply t =>
    cases t with
    | none =>
      refine ⟨?_, ?_, ?_⟩ <;>
        simp [handleSend, hin, hld, sendChatMessage, hs, chatReplyText]
    | some txt =>
      by_cases ht : txt.isEmpty = true
      · refine ⟨?_, ?_, ?_⟩ <;>
          simp [handleSend, hin, hld, sendChatMessage, hs, chatReplyText, ht]
      · rw [Bool.not_eq_true] at ht
        refine ⟨?_, ?_, ?_⟩ <;>
          simp [handleSend, hin, hld, sendChatMessage, hs, chatReplyText, ht]

/-- Witness for C4: chatting before any analysis, with the call failing. -/
theorem c4_chat_before_analysis_witness :
    (handleSend 0 ChatOutcome.error c4State).session = some { history := [] } ∧
      (handleSend 0 ChatOutcome.error c4State).messages = c4State.messages ++
        [{ id := natToStr 0, role := Role.user, text := c4State.chatInput,
           timestamp := 0 },
         { id := natToStr (0 + 1), role := Role.model,
           text := chatReplyText ChatOutcome.error, timestamp := 0 }] ∧
      (handleSend 0 ChatOutcome.error c4State).chatLoading = false :=
  c4_chat_before_analysis 0 ChatOutcome.error c4State rfl rfl rfl

/-- C3: for every completed (successful) analysis run, the visualization
state is updated only when a value was parsed out of the response text;
when no parseable structured block was found, the visualization state
keeps its previous value — it is not cleared or reset — while the new
report text (the full raw response) is still stored for display. -/
theorem c3_visualization_invariant (now : Nat) (resp : ServiceResponse)
    (s : AppState) (him : s.images ≠ [])
    (hnb : (extractVisualization (resp.text.getD [])).1 = none) :
    (runAnalysis now (.success resp) s).visualizationData = s.visualizationData ∧
      (runAnalysis now (.success resp) s).analysisResult =
        some { markdownReport := resp.text.getD [],
               visualizationData := none,
               groundingLinks := groundingLinksOf (resp.chunks.getD []) } ∧
      (∀ resp2 : ServiceResponse,
        (runAnalysis now (.success resp2) s).visualizationData ≠
            s.visualizationData →
          (extractVisualization (resp2.text.getD [])).1 ≠ none) := by
  have him0 : ¬ s.images.length = 0 := by
    simpa [List.length_eq_zero] using him
  obtain ⟨h1, h2⟩ := runAnalysis_noblock him0 hnb
  refine ⟨h1, h2, ?_⟩
  intro resp2 hne hnone
  exact hne (runAnalysis_noblock him0 hnone).1

/-- Witness for C3 on a blockless response over a fresh state. -/
theorem c3_visualization_invariant_witness :
    (runAnalysis 0 (.success c3Resp) c3State).visualizationData =
        c3State.visualizationData ∧
      (runAnalysis 0 (.success c3Resp) c3State).analysisResult =
        some { markdownReport := c3Resp.text.getD [],
               visualizationData := none,
               groundingLinks := groundingLinksOf (c3Resp.chunks.getD []) } := by
  obtain ⟨h1, h2, _⟩ :=
    c3_visualization_invariant 0 c3Resp c3State (by simp [c3State]) rfl
  exact ⟨h1, h2⟩

/-- C2 as stated is false: `runAnalysis` clears the previously displayed
analysis result (`setAnalysisResult(null)`) and resets the email status
(`setEmailStatus('idle')`) before the external call, so a failed run does
not leave all prior UI state unchanged — witnessed by a concrete state
with a displayed result and a sent email status. -/
theorem c2_failure_counterexample :
    ¬ ((runAnalysis 0 AnalysisOutcome.failure c2State).analysisResult =
          c2State.analysisResult ∧
       (runAnalysis 0 AnalysisOutcome.failure c2State).emailStatus =
          c2State.emailStatus) := by
  rintro ⟨h1, _⟩
  have h2 : (none : Option AnalysisResponse) = some c2Response := h1
  exact Option.noConfusion h2

/-- C2 (amended): for every failed analysis run on a non-empty image set,
the error is caught once at the top level and the generic failure notice
is presented; the visualization data, chat messages, session and email
address are left unchanged, but the previously displayed analysis result
is cleared and the email status reset to idle (both reset before the
failing call), and the analyzing flag ends false. -/
theorem c2_failure_state_amended (now : Nat) (s : AppState)
    (him : s.images ≠ []) :
    (runAnalysis now AnalysisOutcome.failure s).visualizationData =
        s.visualizationData ∧
      (runAnalysis now AnalysisOutcome.failure s).messages = s.messages ∧
      (runAnalysis now AnalysisOutcome.failure s).session = s.session ∧
      (runAnalysis now AnalysisOutcome.failure s).email = s.email ∧
      (runAnalysis now AnalysisOutcome.failure s).notices =
        s.notices ++ [analysisFailureNotice] ∧
      (runAnalysis now AnalysisOutcome.failure s).analysisResult = none ∧
      (runAnalysis now AnalysisOutcome.failure s).emailStatus =
        EmailStatus.idle ∧
      (runAnalysis now AnalysisOutcome.failure s).analyzing = false := by
  have him0 : ¬ s.images.length = 0 := by
    simpa [List.length_eq_zero] using him
  refine ⟨?_, ?_, ?_, ?_, ?_, ?_, ?_, ?_⟩ <;> simp [runAnalysis, him0]

/-- Witness for the amended C2 at the concrete failing state. -/
theorem c2_failure_state_amended_witness :
    (runAnalysis 0 AnalysisOutcome.failure c2State).visualizationData =
        c2State.visualizationData ∧
      (runAnalysis 0 AnalysisOutcome.failure c2State).messages =
        c2State.messages ∧
      (runAnalysis 0 AnalysisOutcome.failure c2State).session =
        c2State.session ∧
      (runAnalysis 0 AnalysisOutcome.failure c2State).email = c2State.email ∧
      (runAnalysis 0 AnalysisOutcome.failure c2State).notices =
        c2State.notices ++ [analysisFailureNotice] ∧
      (runAnalysis 0 AnalysisOutcome.failure c2State).analysisResult = none ∧
      (runAnalysis 0 AnalysisOutcome.failure c2State).emailStatus =
        EmailStatus.idle ∧
      (runAnalysis 0 AnalysisOutcome.failure c2State).analyzing = false :=
  c2_failure_state_amended 0 c2State (by simp [c2State])

end MarketAnly
